import Mathlib

/-!
Verification of the cubic-spline engine (`CubicSpline.cpp`).

The C++ code is shallowly embedded over exact rationals (`ℚ` in place of
`float`): every claim settled here is about the algebraic structure of the
algorithms, not about floating-point rounding.  Machine-integer conversions
that matter to the claims (the `static_cast<size_t>` of a negative `int` in
`evaluate` / `evaluate_derivative`) are modelled explicitly with wraparound
modulo 2^64.  A C++ operation whose behaviour is undefined (an out-of-range
`vector::operator[]` access) is modelled by returning `none`.
-/

/-- One control point of a spline: value `a` and solved cubic coefficients
`b`, `c`, `d` (mirrors the `SplinePoint` fields used by `CubicSpline.cpp`). -/
structure SplinePoint where
  a : ℚ
  b : ℚ
  c : ℚ
  d : ℚ
deriving DecidableEq, Repr, Inhabited

/-- A one-dimensional spline: ordered control points plus the spatial extent
(period of the value domain; 0 = non-cyclic).  Mirrors `CubicSpline`'s
`m_points` / `m_spatial_extent`. -/
structure CubicSpline where
  m_points : List SplinePoint
  m_spatial_extent : ℚ
deriving DecidableEq, Repr, Inhabited

/-- `loop_space_difference` (CubicSpline.cpp lines 137-146): the difference
`a - b` wrapped into a cyclic value domain of the given extent, choosing
between the two candidates `a-(b+extent)` and `a-(b-extent)` by magnitude. -/
def loop_space_difference (a b spatial_extent : ℚ) : ℚ :=
  let plus_diff := a - (b + spatial_extent)
  let minus_diff := a - (b - spatial_extent)
  if |plus_diff| < |minus_diff| then plus_diff else minus_diff

/-- C++ `static_cast<int>` on a float value: truncation toward zero
(defined behaviour only for values representable in `int`; theorems carry
the corresponding range hypotheses). -/
def ratTrunc (q : ℚ) : Int :=
  if 0 ≤ q then ⌊q⌋ else ⌈q⌉

/-- C++ `static_cast<size_t>` on an `int`: conversion modulo 2^64
(a negative `int` becomes a huge unsigned value). -/
def toSizeT (i : Int) : Nat :=
  (i % (2 ^ 64)).toNat

/-- The combined effect of the two wrap loops in `evaluate` /
`evaluate_derivative` (`while(t >= max_t) t -= max_t; while(t < 0) t += max_t;`):
the canonical representative of `t` modulo `n` in `[0, n)`. -/
def wrapLoop (t n : ℚ) : ℚ :=
  t - n * (⌊t / n⌋ : ℤ)

/-- `CubicSpline::evaluate` (lines 301-332).  `lf` is the `loop` argument. -/
def CubicSpline.evaluate (s : CubicSpline) (t : ℚ) (lf : Bool) : ℚ :=
  if s.m_points.length = 0 then 0
  else
    let flort0 : Int := ratTrunc t
    if lf then
      let t2 := wrapLoop t (s.m_points.length : ℚ)
      let flort : Int := ratTrunc t2
      let p : Nat := min (toSizeT flort) (s.m_points.length - 1)
      let pt := s.m_points.getD p default
      let tfrac := t2 - (flort : ℚ)
      let tsq := tfrac * tfrac
      let tcub := tsq * tfrac
      pt.a + pt.b * tfrac + pt.c * tsq + pt.d * tcub
    else
      if flort0 ≤ 0 then (s.m_points.getD 0 default).a
      else if s.m_points.length - 1 ≤ toSizeT flort0 then
        (s.m_points.getD (s.m_points.length - 1) default).a
      else
        let p : Nat := min (toSizeT flort0) (s.m_points.length - 1)
        let pt := s.m_points.getD p default
        let tfrac := t - (flort0 : ℚ)
        let tsq := tfrac * tfrac
        let tcub := tsq * tfrac
        pt.a + pt.b * tfrac + pt.c * tsq + pt.d * tcub

/-- `CubicSpline::evaluate_derivative` (lines 334-360). -/
def CubicSpline.evaluate_derivative (s : CubicSpline) (t : ℚ) (lf : Bool) : ℚ :=
  if s.m_points.length = 0 then 0
  else
    let flort0 : Int := ratTrunc t
    if lf then
      let t2 := wrapLoop t (s.m_points.length : ℚ)
      let flort : Int := ratTrunc t2
      let p : Nat := min (toSizeT flort) (s.m_points.length - 1)
      let pt := s.m_points.getD p default
      let tfrac := t2 - (flort : ℚ)
      let tsq := tfrac * tfrac
      pt.b + 2 * pt.c * tfrac + 3 * pt.d * tsq
    else
      if s.m_points.length - 1 ≤ toSizeT flort0 then 0
      else
        let p : Nat := min (toSizeT flort0) (s.m_points.length - 1)
        let pt := s.m_points.getD p default
        let tfrac := t - (flort0 : ℚ)
        let tsq := tfrac * tfrac
        pt.b + 2 * pt.c * tfrac + 3 * pt.d * tsq

/-- The NaN-sanitizing `UNNAN` macro from `set_results`.  Over `ℚ` the test
`n != n` is identically false, so this is the identity; it is kept so that
`set_results` matches the source line for line. -/
def unnan (x : ℚ) : ℚ :=
  if x ≠ x then 0 else x

/-- `CubicSpline::check_minimum_size` (lines 237-264), together with the
coefficient writes it performs.  Returns the updated spline and the boolean
result (`true` = already solved, skip the linear algebra).  The 0-point case
executes `m_points[0].b = ...` on an empty vector, an out-of-range access,
modelled as `none`. -/
def check_minimum_size (s : CubicSpline) : Option (CubicSpline × Bool) :=
  match s.m_points with
  | [] => none
  | [p0] => some ({ s with m_points := [{ p0 with b := 0, c := 0, d := 0 }] }, true)
  | [p0, p1] => some ({ s with m_points :=
      [{ p0 with b := loop_space_difference p1.a p0.a s.m_spatial_extent, c := 0, d := 0 },
       { p1 with b := loop_space_difference p0.a p1.a s.m_spatial_extent, c := 0, d := 0 }] }, true)
  | p0 :: rest => some
      ({ s with m_points := p0 :: rest.map (fun p => { p with b := 0, c := 0, d := 0 }) },
       rest.all (fun p => decide (p.a = p0.a)))

/-- `SplineSolutionCache::solve_diagonals_straight` (lines 69-88), the pure
computation performed on a cache miss for a spline of `n` points:
`d[0]=2`, `d[i]=4` for the interior (`prep_inner(last-1)`), `d[n-1]=2`, then
forward elimination `d[1] -= 0.5; for i in 1..n-2: d[i+1] -= 1/d[i]`.
The cache wrapper is modelled separately below. -/
def straight_diags (n : Nat) : List ℚ :=
  let d0 := (List.replicate n (0 : ℚ)).set 0 2
  let d1 := (List.range' 1 (n - 2)).foldl (fun d i => d.set i 4) d0
  let d2 := d1.set (n - 1) 2
  let d3 := d2.set 1 (d2.getD 1 0 - 1 / 2)
  (List.range' 1 (n - 2)).foldl
    (fun d i => d.set (i + 1) (d.getD (i + 1) 0 - 1 / d.getD i 0)) d3

/-- One iteration of the elimination loop in
`SplineSolutionCache::solve_diagonals_looped` (lines 106-121).  The state is
`(diagonals, cedge, redge)`; the order of reads and writes follows the source:
`diagonals[i]` is read again (unchanged) for the `diagonals[end]` update, and
the `cedge`/`redge` used there are the values from before the reassignment. -/
def looped_diag_work (n : Nat) (st : List ℚ × ℚ × ℚ) (i : Nat) : List ℚ × ℚ × ℚ :=
  let d := st.1
  let cedge := st.2.1
  let redge := st.2.2
  let diag_recip := 1 / d.getD i 0
  let d1 := d.set (i + 1) (d.getD (i + 1) 0 - diag_recip)
  let next_redge := 0 - redge * diag_recip
  let next_cedge := 0 - cedge * diag_recip
  let d2 := d1.set (n - 1) (d1.getD (n - 1) 0 - redge * (cedge / d1.getD i 0))
  (d2, next_cedge, next_redge)

/-- `SplineSolutionCache::solve_diagonals_looped` (lines 90-127), the pure
computation on a cache miss: `d[0]=4`, `prep_inner(last)` fills the rest with
4, then the `cedge`/`redge` elimination loop over `i in 0..n-3` and the final
corner correction `d[n-1] -= redge * ((1-cedge)/d[n-2])`. -/
def looped_diags (n : Nat) : List ℚ :=
  let d0 := (List.replicate n (0 : ℚ)).set 0 4
  let d1 := (List.range' 1 (n - 1)).foldl (fun d i => d.set i 4) d0
  let fin := (List.range (n - 2)).foldl (looped_diag_work n) (d1, 1, 1)
  let d := fin.1
  let cedge := fin.2.1
  let redge := fin.2.2
  d.set (n - 1) (d.getD (n - 1) 0 - redge * ((1 - cedge) / d.getD (n - 2) 0))

/-- The elimination step exactly as worded by the specification of the
periodic diagonal solve: `recip = 1/d[i]`, `d[i+1] -= recip`,
`d[n-1] -= redge·(cedge·recip)`, then `cedge' = -cedge·recip`,
`redge' = -redge·recip`.  Stated from the spec's words, for comparison with
`looped_diag_work` (the source). -/
def looped_diag_work_spec (n : Nat) (st : List ℚ × ℚ × ℚ) (i : Nat) : List ℚ × ℚ × ℚ :=
  let d := st.1
  let cedge := st.2.1
  let redge := st.2.2
  let recip := 1 / d.getD i 0
  let d1 := d.set (i + 1) (d.getD (i + 1) 0 - recip)
  let d2 := d1.set (n - 1) (d1.getD (n - 1) 0 - redge * (cedge * recip))
  (d2, -(cedge * recip), -(redge * recip))

/-- The periodic diagonal solve as worded by the specification: same
initialization, the `looped_diag_work_spec` steps for `i in 0..n-3`, and the
final correction `d[n-1] -= redge·((1-cedge)/d[n-2])`. -/
def looped_diags_spec (n : Nat) : List ℚ :=
  let d0 := (List.replicate n (0 : ℚ)).set 0 4
  let d1 := (List.range' 1 (n - 1)).foldl (fun d i => d.set i 4) d0
  let fin := (List.range (n - 2)).foldl (looped_diag_work_spec n) (d1, 1, 1)
  let d := fin.1
  let cedge := fin.2.1
  let redge := fin.2.2
  d.set (n - 1) (d.getD (n - 1) 0 - redge * ((1 - cedge) / d.getD (n - 2) 0))

/-- The forward elimination that `CubicSpline::solve_straight` applies to the
right-hand-side vector (lines 227-233), exactly as in the source:
`results[1] -= results[0] * 0.5`, then for `i` from 1 to `n-2`:
`results[i] -= results[i-1] * (1 / diagonals[i])`. -/
def straight_rhs_eliminate (diagonals results : List ℚ) : List ℚ :=
  let r0 := results.set 1 (results.getD 1 0 - results.getD 0 0 * (1 / 2))
  (List.range' 1 (results.length - 2)).foldl
    (fun r i => r.set i (r.getD i 0 - r.getD (i - 1) 0 * (1 / diagonals.getD i 0))) r0

/-- The right-hand-side elimination as the claim (and the in-source comment)
describe it: after `rhs[1] -= rhs[0]·0.5`, each iteration `i` from 1 to `n-2`
subtracts `rhs[i]/d[i]` from `rhs[i+1]`, mirroring the diagonal update
`d[i+1] -= 1/d[i]`.  Stated from the claim's words, for comparison with
`straight_rhs_eliminate` (the source). -/
def straight_rhs_eliminate_claim (diagonals results : List ℚ) : List ℚ :=
  let r0 := results.set 1 (results.getD 1 0 - results.getD 0 0 * (1 / 2))
  (List.range' 1 (results.length - 2)).foldl
    (fun r i => r.set (i + 1) (r.getD (i + 1) 0 - r.getD i 0 / diagonals.getD i 0)) r0

/-- One iteration of the right-hand-side elimination loop in
`CubicSpline::solve_looped` (lines 183-198).  State `(results, cedge, redge)`;
the `results[end]` update uses the pre-reassignment `redge`, as in the source. -/
def looped_rhs_work (diagonals : List ℚ) (n : Nat) (st : List ℚ × ℚ × ℚ) (i : Nat) :
    List ℚ × ℚ × ℚ :=
  let r := st.1
  let cedge := st.2.1
  let redge := st.2.2
  let diag_recip := 1 / diagonals.getD i 0
  let next_redge := 0 - redge * diag_recip
  let r1 := r.set (i + 1) (r.getD (i + 1) 0 - r.getD i 0 * diag_recip)
  let next_cedge := 0 - cedge * diag_recip
  let r2 := r1.set (n - 1) (r1.getD (n - 1) 0 - r1.getD i 0 * (redge / diagonals.getD i 0))
  (r2, next_cedge, next_redge)

/-- The full right-hand-side elimination of `CubicSpline::solve_looped`
(lines 177-201), including the final
`results[end] -= results[stop] * ((1-redge)/diagonals[stop])`. -/
def looped_rhs_eliminate (diagonals results : List ℚ) : List ℚ :=
  let n := results.length
  let fin := (List.range (n - 2)).foldl (looped_rhs_work diagonals n) (results, 1, 1)
  let r := fin.1
  let redge := fin.2.2
  r.set (n - 1) (r.getD (n - 1) 0 - r.getD (n - 2) 0 * ((1 - redge) / diagonals.getD (n - 2) 0))

/-- `CubicSpline::set_results` (lines 275-299): divide each rhs entry by its
diagonal, then derive the per-point coefficients
`b = m[i]`, `c = 3·diff − 2·m[i] − m[next]`, `d = −2·diff + m[i] + m[next]`
with `next = (i+1) mod last` and `diff` the wrapped point difference; any NaN
coefficient is forced to 0 (`unnan`). -/
def set_results (s : CubicSpline) (diagonals results : List ℚ) : CubicSpline :=
  let last := s.m_points.length
  let m := fun i => results.getD i 0 / diagonals.getD i 0
  { s with m_points := (List.range last).map (fun i =>
      let next := (i + 1) % last
      let diff := loop_space_difference ((s.m_points.getD next default).a)
        ((s.m_points.getD i default).a) s.m_spatial_extent
      { a := (s.m_points.getD i default).a
        b := unnan (m i)
        c := unnan (3 * diff - 2 * m i - m next)
        d := unnan (2 * (-diff) + m i + m next) }) }

/-- `CubicSpline::solve_straight` (lines 206-235).  The diagonal vector is the
cache-miss computation `straight_diags`; the cache-transparency theorem (C8)
shows the cached call returns the same vector from any reachable cache state.
`none` propagates the out-of-range access of the 0-point case. -/
def solve_straight (s : CubicSpline) : Option CubicSpline :=
  match check_minimum_size s with
  | none => none
  | some (t, true) => some t
  | some (t, false) =>
    let last := t.m_points.length
    let av := fun i => (t.m_points.getD i default).a
    let diagonals := straight_diags last
    let r0 := (List.replicate last (0 : ℚ)).set 0 (3 * (av 1 - av 0))
    let r1 := (List.range' 1 (last - 2)).foldl
      (fun r i => r.set i (3 * loop_space_difference (av (i + 1)) (av (i - 1)) t.m_spatial_extent)) r0
    let r2 := r1.set (last - 1)
      (3 * loop_space_difference (av (last - 1)) (av (last - 2)) t.m_spatial_extent)
    some (set_results t diagonals (straight_rhs_eliminate diagonals r2))

/-- `CubicSpline::solve_looped` (lines 148-204), analogous to
`solve_straight` but with the periodic right-hand side and the
`cedge`/`redge` elimination. -/
def solve_looped (s : CubicSpline) : Option CubicSpline :=
  match check_minimum_size s with
  | none => none
  | some (t, true) => some t
  | some (t, false) =>
    let last := t.m_points.length
    let av := fun i => (t.m_points.getD i default).a
    let diagonals := looped_diags last
    let r0 := (List.replicate last (0 : ℚ)).set 0
      (3 * loop_space_difference (av 1) (av (last - 1)) t.m_spatial_extent)
    let r1 := (List.range' 1 (last - 2)).foldl
      (fun r i => r.set i (3 * loop_space_difference (av (i + 1)) (av (i - 1)) t.m_spatial_extent)) r0
    let r2 := r1.set (last - 1)
      (3 * loop_space_difference (av 0) (av (last - 2)) t.m_spatial_extent)
    some (set_results t diagonals (looped_rhs_eliminate diagonals r2))

/-- `solution_cache_limit` (line 32). -/
def solution_cache_limit : Nat := 16

/-- `SplineSolutionCache::find_in_cache` (lines 34-50): scan the pool for an
entry of the requested size and copy it out; `none` models `return false`. -/
def find_in_cache (cache : List (List ℚ)) (n : Nat) : Option (List ℚ) :=
  cache.find? (fun e => e.length == n)

/-- `SplineSolutionCache::add_to_cache` (lines 52-59): drop the back entry
when the pool already holds `solution_cache_limit` entries, then push the new
entry at the front. -/
def add_to_cache (cache : List (List ℚ)) (v : List ℚ) : List (List ℚ) :=
  v :: (if solution_cache_limit ≤ cache.length then cache.dropLast else cache)

/-- The cached entry point `solve_diagonals_straight`: return the cached
vector on a hit, otherwise compute `straight_diags` and insert it.  Returns
the produced diagonals together with the updated pool. -/
def solve_diagonals_straight_cached (pool : List (List ℚ)) (n : Nat) :
    List ℚ × List (List ℚ) :=
  match find_in_cache pool n with
  | some e => (e, pool)
  | none => (straight_diags n, add_to_cache pool (straight_diags n))

/-- The cached entry point `solve_diagonals_looped`, analogous. -/
def solve_diagonals_looped_cached (pool : List (List ℚ)) (n : Nat) :
    List ℚ × List (List ℚ) :=
  match find_in_cache pool n with
  | some e => (e, pool)
  | none => (looped_diags n, add_to_cache pool (looped_diags n))

/-- One solve request against the process-wide `SplineSolutionCache`:
either boundary mode, for a given point count. -/
inductive CacheOp where
  | straight (n : Nat)
  | looped (n : Nat)
deriving DecidableEq, Repr

/-- The point count of a cache request. -/
def CacheOp.count : CacheOp → Nat
  | .straight n => n
  | .looped n => n

/-- The two pools of the `SplineSolutionCache` (`straight_diagonals` and
`looped_diagonals`). -/
structure CacheState where
  straight_pool : List (List ℚ)
  looped_pool : List (List ℚ)
deriving DecidableEq, Repr

/-- Effect of one solve request on the cache pools. -/
def cacheStep (st : CacheState) (op : CacheOp) : CacheState :=
  match op with
  | .straight n => { st with straight_pool := (solve_diagonals_straight_cached st.straight_pool n).2 }
  | .looped n => { st with looped_pool := (solve_diagonals_looped_cached st.looped_pool n).2 }

/-- The cache state reached from the program-start state (both pools empty)
after a sequence of solve requests. -/
def runCacheOps (ops : List CacheOp) : CacheState :=
  ops.foldl cacheStep ⟨[], []⟩

/-- The straight pool after solving for the 17 distinct point counts
3, 4, ..., 19 in order, starting from the empty pool (the eviction scenario
of claim C7). -/
def seventeen_pool : List (List ℚ) :=
  (List.range' 3 17).foldl (fun pool n => (solve_diagonals_straight_cached pool n).2) []

/-- The N-dimensional spline bundle `CubicSplineN`: member splines, the shared
`loop` flag and the shared dirty flag. -/
structure CubicSplineN where
  m_splines : List CubicSpline
  loop : Bool
  m_dirty : Bool
deriving DecidableEq, Repr, Inhabited

/-- `CubicSpline::set_point` (lines 362-366); the `ASSERT_M` bounds check is
modelled as `none` on failure. -/
def CubicSpline.set_point (s : CubicSpline) (i : Nat) (v : ℚ) : Option CubicSpline :=
  if i < s.m_points.length then
    some { s with m_points := s.m_points.set i { s.m_points.getD i default with a := v } }
  else none

/-- `CubicSpline::set_coefficients` (lines 368-374). -/
def CubicSpline.set_coefficients (s : CubicSpline) (i : Nat) (b c d : ℚ) :
    Option CubicSpline :=
  if i < s.m_points.length then
    let pt := { s.m_points.getD i default with b := b, c := c, d := d }
    some { s with m_points := s.m_points.set i pt }
  else none

/-- `CubicSpline::resize` (lines 384-387): `vector::resize` truncates or
appends value-initialized (all-zero) points. -/
def CubicSpline.resize (s : CubicSpline) (n : Nat) : CubicSpline :=
  { s with m_points := s.m_points.take n ++ List.replicate (n - s.m_points.length) default }

/-- `CubicSpline::size`. -/
def CubicSpline.size (s : CubicSpline) : Nat :=
  s.m_points.length

/-- The per-member loop of `CubicSplineN::set_point` (lines 442-445):
`m_splines[n].set_point(i, v[n])` for each dimension. -/
def set_point_each : List CubicSpline → List ℚ → Nat → Option (List CubicSpline)
  | [], [], _ => some []
  | s :: rest, v :: vs, i =>
    match CubicSpline.set_point s i v, set_point_each rest vs i with
    | some t, some r2 => some (t :: r2)
    | _, _ => none
  | _, _, _ => none

/-- `CubicSplineN::set_point` (lines 439-447); the dimension `ASSERT_M` is
modelled as `none` on failure. -/
def CubicSplineN.set_point (bun : CubicSplineN) (i : Nat) (v : List ℚ) :
    Option CubicSplineN :=
  if v.length = bun.m_splines.length then
    match set_point_each bun.m_splines v i with
    | some l => some { bun with m_splines := l, m_dirty := true }
    | none => none
  else none

/-- The per-member loop of `CubicSplineN::set_coefficients` (lines 455-458). -/
def set_coefficients_each :
    List CubicSpline → List ℚ → List ℚ → List ℚ → Nat → Option (List CubicSpline)
  | [], [], [], [], _ => some []
  | s :: rest, b :: bs, c :: cs, d :: ds, i =>
    match CubicSpline.set_coefficients s i b c d, set_coefficients_each rest bs cs ds i with
    | some t, some r2 => some (t :: r2)
    | _, _ => none
  | _, _, _, _, _ => none

/-- `CubicSplineN::set_coefficients` (lines 449-460). -/
def CubicSplineN.set_coefficients (bun : CubicSplineN) (i : Nat) (bs cs ds : List ℚ) :
    Option CubicSplineN :=
  if bs.length = cs.length ∧ cs.length = ds.length ∧ ds.length = bun.m_splines.length then
    match set_coefficients_each bun.m_splines bs cs ds i with
    | some l => some { bun with m_splines := l, m_dirty := true }
    | none => none
  else none

/-- `CubicSplineN::set_spatial_extent` (lines 474-480). -/
def CubicSplineN.set_spatial_extent (bun : CubicSplineN) (i : Nat) (e : ℚ) :
    Option CubicSplineN :=
  if i < bun.m_splines.length then
    some { bun with
      m_splines := bun.m_splines.set i
        { bun.m_splines.getD i default with m_spatial_extent := e },
      m_dirty := true }
  else none

/-- `CubicSplineN::resize` (lines 489-497): resize every member spline. -/
def CubicSplineN.resize (bun : CubicSplineN) (n : Nat) : CubicSplineN :=
  { bun with m_splines := bun.m_splines.map (fun s => CubicSpline.resize s n), m_dirty := true }

/-- `CubicSplineN::redimension` (lines 513-517): `m_splines.resize(d)`, which
truncates or appends default-constructed (empty) splines. -/
def CubicSplineN.redimension (bun : CubicSplineN) (d : Nat) : CubicSplineN :=
  { bun with
    m_splines := bun.m_splines.take d ++ List.replicate (d - bun.m_splines.length) default,
    m_dirty := true }

/-- `CubicSplineN::size` (lines 499-506): the first member's point count, 0
when there are no members. -/
def CubicSplineN.size (bun : CubicSplineN) : Nat :=
  match bun.m_splines with
  | [] => 0
  | s :: _ => s.m_points.length

/-- The per-member loop of `CubicSplineN::solve`, applying the given solve
entry point to every member spline. -/
def solve_each (f : CubicSpline → Option CubicSpline) :
    List CubicSpline → Option (List CubicSpline)
  | [] => some []
  | s :: rest =>
    match f s, solve_each f rest with
    | some t, some r2 => some (t :: r2)
    | _, _ => none

/-- `CubicSplineN::solve` (lines 399-419): no-op unless dirty, else solve
every member per the shared loop flag and clear the dirty flag. -/
def CubicSplineN.solve (bun : CubicSplineN) : Option CubicSplineN :=
  if bun.m_dirty = false then some bun
  else
    match solve_each (if bun.loop then solve_looped else solve_straight) bun.m_splines with
    | some l => some { bun with m_splines := l, m_dirty := false }
    | none => none

/-- The invariant of claim C6: all member splines report the same size. -/
def sizes_all_eq (bun : CubicSplineN) : Prop :=
  ∀ s1 ∈ bun.m_splines, ∀ s2 ∈ bun.m_splines, s1.m_points.length = s2.m_points.length

/-- Invariant of a cache pool: every entry is the solution vector for its own
length (used for the cache-transparency claim C8). -/
def pool_ok (pool : List (List ℚ)) (f : Nat → List ℚ) : Prop :=
  ∀ e ∈ pool, e = f e.length

/-!  Theorems.  Helper lemmas come first, then one theorem per claim (plus
the required witnesses and counterexamples). -/

theorem getD_mem_of_lt (l : List SplinePoint) (i : Nat) (h : i < l.length) :
    l.getD i default ∈ l := by
  rw [List.getD_eq_getElem?_getD, List.getElem?_eq_getElem h, Option.getD_some]
  exact List.getElem_mem h

/-- Evaluation of a spline whose points all carry the same value `v` and zero
coefficients yields `v`, in either loop mode: every branch of `evaluate`
reads some in-bounds point. -/
theorem evaluate_const (pts : List SplinePoint) (ext v : ℚ)
    (hne : pts.length ≠ 0)
    (hall : ∀ p ∈ pts, p = ⟨v, 0, 0, 0⟩) (t : ℚ) (lf : Bool) :
    CubicSpline.evaluate ⟨pts, ext⟩ t lf = v := by
  have hpos : 0 < pts.length := Nat.pos_of_ne_zero hne
  have key : ∀ i, i < pts.length → pts.getD i default = ⟨v, 0, 0, 0⟩ :=
    fun i hi => hall _ (getD_mem_of_lt pts i hi)
  have hsub : pts.length - 1 < pts.length := Nat.sub_lt hpos Nat.one_pos
  unfold CubicSpline.evaluate
  simp only [hne, if_false]
  cases lf with
  | true =>
    simp only [if_true]
    rw [key _ (lt_of_le_of_lt (min_le_right _ _) hsub)]
    ring
  | false =>
    simp only [Bool.false_eq_true, if_false]
    split
    · rw [key 0 hpos]
    · split
      · rw [key _ hsub]
      · rw [key _ (lt_of_le_of_lt (min_le_right _ _) hsub)]
        ring

/-- C1, counterexample: on a 3-point all-identical spline whose first point
carries a nonzero `b` coefficient, `check_minimum_size` leaves that
coefficient untouched (the zeroing loop starts at index 1), so not every
point's coefficients are zero and looped evaluation inside the first segment
is not flat at the common value 5. -/
theorem C1_counterexample :
    check_minimum_size ⟨[⟨5, 1, 0, 0⟩, ⟨5, 7, 8, 9⟩, ⟨5, 0, 0, 0⟩], 0⟩ =
      some (⟨[⟨5, 1, 0, 0⟩, ⟨5, 0, 0, 0⟩, ⟨5, 0, 0, 0⟩], 0⟩, true) ∧
    (((⟨[⟨5, 1, 0, 0⟩, ⟨5, 0, 0, 0⟩, ⟨5, 0, 0, 0⟩], 0⟩ : CubicSpline).m_points.getD 0
        default).b ≠ 0 ∧
      CubicSpline.evaluate ⟨[⟨5, 1, 0, 0⟩, ⟨5, 0, 0, 0⟩, ⟨5, 0, 0, 0⟩], 0⟩ (1/2) true ≠ 5) := by
  refine ⟨rfl, by decide, ?_⟩
  have h : CubicSpline.evaluate ⟨[⟨5, 1, 0, 0⟩, ⟨5, 0, 0, 0⟩, ⟨5, 0, 0, 0⟩], 0⟩ (1/2) true
      = 11/2 := by with_unfolding_all decide
  rw [h]
  norm_num

/-- C1, amended: for a spline of at least 3 points whose values all equal the
first point's value, `check_minimum_size` zeroes the coefficients of every
point EXCEPT the first (whose coefficients are left unchanged), reports
already-solved, and both solve entry points return that state unchanged;
evaluation is then flat at the common value provided the first point's
coefficients are (already) zero. -/
theorem C1_amended (p0 : SplinePoint) (rest : List SplinePoint) (ext : ℚ)
    (hlen : 2 ≤ rest.length) (hall : ∀ p ∈ rest, p.a = p0.a) :
    check_minimum_size ⟨p0 :: rest, ext⟩ =
      some (⟨p0 :: rest.map (fun p => { p with b := 0, c := 0, d := 0 }), ext⟩, true) ∧
    solve_straight ⟨p0 :: rest, ext⟩ =
      some ⟨p0 :: rest.map (fun p => { p with b := 0, c := 0, d := 0 }), ext⟩ ∧
    solve_looped ⟨p0 :: rest, ext⟩ =
      some ⟨p0 :: rest.map (fun p => { p with b := 0, c := 0, d := 0 }), ext⟩ ∧
    (p0.b = 0 → p0.c = 0 → p0.d = 0 →
      ∀ (t : ℚ), -(2^31) ≤ t → t < 2^31 → ∀ (lf : Bool),
        CubicSpline.evaluate
          ⟨p0 :: rest.map (fun p => { p with b := 0, c := 0, d := 0 }), ext⟩ t lf = p0.a) := by
  obtain ⟨r1, r2, rrest, rfl⟩ : ∃ r1 r2 rrest, rest = r1 :: r2 :: rrest := by
    match rest, hlen with
    | r1 :: r2 :: rrest, _ => exact ⟨r1, r2, rrest, rfl⟩
  have hallb : ((r1 :: r2 :: rrest).all (fun p => decide (p.a = p0.a))) = true := by
    rw [List.all_eq_true]
    intro x hx
    exact decide_eq_true (hall x hx)
  have hcheck : check_minimum_size ⟨p0 :: r1 :: r2 :: rrest, ext⟩ =
      some (⟨p0 :: (r1 :: r2 :: rrest).map (fun p => { p with b := 0, c := 0, d := 0 }), ext⟩,
        true) := by
    have h0 : check_minimum_size ⟨p0 :: r1 :: r2 :: rrest, ext⟩ =
        some (⟨p0 :: (r1 :: r2 :: rrest).map (fun p => { p with b := 0, c := 0, d := 0 }), ext⟩,
          (r1 :: r2 :: rrest).all (fun p => decide (p.a = p0.a))) := rfl
    rw [h0, hallb]
  refine ⟨hcheck, ?_, ?_, ?_⟩
  · unfold solve_straight
    rw [hcheck]
  · unfold solve_looped
    rw [hcheck]
  · intro hb hc hd t _ _ lf
    apply evaluate_const
    · simp
    · intro p hp
      rcases List.mem_cons.mp hp with h0 | hm
      · rw [h0]
        cases p0
        simp_all
      · obtain ⟨q, hq, rfl⟩ := List.mem_map.mp hm
        have : q.a = p0.a := hall q hq
        simp [this]

/-- Witness for C1_amended at a concrete all-identical 3-point spline. -/
theorem C1_witness :
    2 ≤ ([⟨7, 1, 2, 3⟩, ⟨7, 4, 5, 6⟩] : List SplinePoint).length ∧
    check_minimum_size ⟨[⟨7, 0, 0, 0⟩, ⟨7, 1, 2, 3⟩, ⟨7, 4, 5, 6⟩], 2⟩ =
      some (⟨[⟨7, 0, 0, 0⟩, ⟨7, 0, 0, 0⟩, ⟨7, 0, 0, 0⟩], 2⟩, true) ∧
    CubicSpline.evaluate ⟨[⟨7, 0, 0, 0⟩, ⟨7, 0, 0, 0⟩, ⟨7, 0, 0, 0⟩], 2⟩ (3/2) true = 7 := by
  have h := C1_amended ⟨7, 0, 0, 0⟩ [⟨7, 1, 2, 3⟩, ⟨7, 4, 5, 6⟩] 2 (by decide) (by decide)
  exact ⟨by decide, h.1, h.2.2.2 rfl rfl rfl (3/2) (by norm_num) (by norm_num) true⟩

/-- C3 (code_bug exhibit): on a 0-point spline either solve entry point
executes the out-of-range write `m_points[0].b = 0` (modelled as `none`)
instead of the claimed defined result, while the 1-point case behaves as the
claim says: all coefficients of the single point are set to 0 and the solve
returns with no linear algebra. -/
theorem C3_zero_points_out_of_range :
    check_minimum_size ⟨[], 0⟩ = none ∧
    solve_straight ⟨[], 0⟩ = none ∧
    solve_looped ⟨[], 0⟩ = none ∧
    solve_straight ⟨[⟨5, 1, 2, 3⟩], 0⟩ = some ⟨[⟨5, 0, 0, 0⟩], 0⟩ ∧
    solve_looped ⟨[⟨5, 1, 2, 3⟩], 0⟩ = some ⟨[⟨5, 0, 0, 0⟩], 0⟩ := by
  refine ⟨rfl, rfl, rfl, rfl, rfl⟩

theorem ratTrunc_of_nonneg {t : ℚ} (h : 0 ≤ t) : ratTrunc t = ⌊t⌋ := by
  unfold ratTrunc
  rw [if_pos h]

theorem ratTrunc_nonpos {t : ℚ} (h : t ≤ 0) : ratTrunc t ≤ 0 := by
  unfold ratTrunc
  split
  · simpa using Int.floor_le_floor h
  · simpa using Int.ceil_le.mpr h

theorem ratTrunc_le_neg_one {t : ℚ} (h : t ≤ -1) : ratTrunc t ≤ -1 := by
  have hneg : ¬ (0 ≤ t) := by linarith
  unfold ratTrunc
  rw [if_neg hneg]
  exact Int.ceil_le.mpr (by exact_mod_cast h)

theorem toSizeT_small {i : Int} (h0 : 0 ≤ i) (h1 : i < 2 ^ 64) : toSizeT i = i.toNat := by
  unfold toSizeT
  rw [Int.emod_eq_of_lt h0 h1]

theorem toSizeT_neg (i : Int) (h0 : -(2 ^ 64) ≤ i) (h1 : i < 0) :
    (toSizeT i : Int) = i + 2 ^ 64 := by
  unfold toSizeT
  have he : i % 2 ^ 64 = (i + 2 ^ 64) % 2 ^ 64 := by
    have h2 := @Int.add_mul_emod_self_left i ((2 : Int) ^ 64) 1
    simp only [mul_one] at h2
    exact h2.symm
  rw [he, Int.emod_eq_of_lt (by linarith) (by linarith)]
  exact Int.toNat_of_nonneg (by linarith)

theorem evaluate_open_first (s : CubicSpline) (t : ℚ) (hne : s.m_points.length ≠ 0)
    (h : ratTrunc t ≤ 0) :
    CubicSpline.evaluate s t false = (s.m_points.getD 0 default).a := by
  unfold CubicSpline.evaluate
  simp only [if_neg hne, Bool.false_eq_true, if_false, if_pos h]

theorem evaluate_open_last (s : CubicSpline) (t : ℚ) (hne : s.m_points.length ≠ 0)
    (h1 : ¬ ratTrunc t ≤ 0) (h2 : s.m_points.length - 1 ≤ toSizeT (ratTrunc t)) :
    CubicSpline.evaluate s t false = (s.m_points.getD (s.m_points.length - 1) default).a := by
  unfold CubicSpline.evaluate
  simp only [if_neg hne, Bool.false_eq_true, if_false, if_neg h1, if_pos h2]

theorem evaluate_open_segment (s : CubicSpline) (t : ℚ) (hne : s.m_points.length ≠ 0)
    (h1 : ¬ ratTrunc t ≤ 0) (h2 : ¬ s.m_points.length - 1 ≤ toSizeT (ratTrunc t)) :
    CubicSpline.evaluate s t false =
      (fun pt f => pt.a + pt.b * f + pt.c * (f * f) + pt.d * (f * f * f))
        (s.m_points.getD (min (toSizeT (ratTrunc t)) (s.m_points.length - 1)) default)
        (t - (ratTrunc t : ℚ)) := by
  unfold CubicSpline.evaluate
  simp only [if_neg hne, Bool.false_eq_true, if_false, if_neg h1, if_neg h2]

/-- C2, amended: for a non-empty spline and non-looped evaluation (with `t`
in the range where the float-to-int cast is defined), `t ≤ 0` clamps to the
first point's value; for `0 < t < 1` it ALSO returns the first point's value
(the truncation `(int)t` is 0, which falls into the `flort <= 0` branch, so
the claim's "cubic of segment 0" is not evaluated there); `t ≥ n-1` clamps to
the last point's value; and for `1 ≤ t < n-1`, with `i = ⌊t⌋` and
`f = t - i`, the result is exactly `p[i].a + b·f + c·f² + d·f³`. -/
theorem C2_amended (s : CubicSpline) (t : ℚ) (hne : s.m_points.length ≠ 0)
    (_hlo : -(2 ^ 31) ≤ t) (hhi : t < 2 ^ 31) :
    (t ≤ 0 → CubicSpline.evaluate s t false = (s.m_points.getD 0 default).a) ∧
    (0 < t → t < 1 → CubicSpline.evaluate s t false = (s.m_points.getD 0 default).a) ∧
    ((s.m_points.length : ℚ) - 1 ≤ t →
      CubicSpline.evaluate s t false = (s.m_points.getD (s.m_points.length - 1) default).a) ∧
    (1 ≤ t → t < (s.m_points.length : ℚ) - 1 →
      CubicSpline.evaluate s t false =
        (s.m_points.getD (⌊t⌋).toNat default).a +
        (s.m_points.getD (⌊t⌋).toNat default).b * (t - (⌊t⌋ : ℚ)) +
        (s.m_points.getD (⌊t⌋).toNat default).c * ((t - (⌊t⌋ : ℚ)) * (t - (⌊t⌋ : ℚ))) +
        (s.m_points.getD (⌊t⌋).toNat default).d *
          ((t - (⌊t⌋ : ℚ)) * (t - (⌊t⌋ : ℚ)) * (t - (⌊t⌋ : ℚ)))) := by
  refine ⟨?_, ?_, ?_, ?_⟩
  · intro h
    exact evaluate_open_first s t hne (ratTrunc_nonpos h)
  · intro h0 h1
    have hz : ratTrunc t = 0 := by
      rw [ratTrunc_of_nonneg (le_of_lt h0)]
      exact Int.floor_eq_zero_iff.mpr ⟨le_of_lt h0, h1⟩
    exact evaluate_open_first s t hne (by rw [hz])
  · intro h3
    by_cases hc : ratTrunc t ≤ 0
    · have ht1 : t < 1 := by
        rcases le_or_lt 0 t with h0 | h0
        · rw [ratTrunc_of_nonneg h0] at hc
          have h5 := Int.lt_floor_add_one t
          have h6 : ((⌊t⌋ : ℚ) + 1) ≤ 1 := by
            have h7 : (⌊t⌋ : ℚ) ≤ 0 := by exact_mod_cast hc
            linarith
          linarith
        · linarith
      have hn1 : s.m_points.length = 1 := by
        have h8 : (s.m_points.length : ℚ) < 2 := by linarith
        have h9 : s.m_points.length < 2 := by exact_mod_cast h8
        omega
      rw [evaluate_open_first s t hne hc, hn1]
    · have h0 : 0 ≤ t := by
        by_contra hneg
        exact hc (ratTrunc_nonpos (le_of_lt (not_le.mp hneg)))
      have hr : ratTrunc t = ⌊t⌋ := ratTrunc_of_nonneg h0
      have hfl : (0 : ℤ) ≤ ⌊t⌋ := Int.le_floor.mpr (by exact_mod_cast h0)
      have hfu : ⌊t⌋ < 2 ^ 64 := by
        have h5 : (⌊t⌋ : ℚ) ≤ t := Int.floor_le t
        have h6 : (⌊t⌋ : ℚ) < 2 ^ 31 := lt_of_le_of_lt h5 hhi
        have h7 : ⌊t⌋ < (2 : ℤ) ^ 31 := by exact_mod_cast h6
        omega
      have hts : toSizeT (ratTrunc t) = (⌊t⌋).toNat := by
        rw [hr]
        exact toSizeT_small hfl hfu
      have hgoal : s.m_points.length - 1 ≤ toSizeT (ratTrunc t) := by
        rw [hts]
        have h5 : ((s.m_points.length : ℤ) - 1) ≤ ⌊t⌋ := Int.le_floor.mpr (by push_cast; linarith)
        omega
      exact evaluate_open_last s t hne hc hgoal
  · intro h1 h2
    have h0 : 0 ≤ t := le_trans zero_le_one h1
    have hr : ratTrunc t = ⌊t⌋ := ratTrunc_of_nonneg h0
    have hfl : (1 : ℤ) ≤ ⌊t⌋ := Int.le_floor.mpr (by exact_mod_cast h1)
    have hc : ¬ ratTrunc t ≤ 0 := by
      rw [hr]
      omega
    have hfu : ⌊t⌋ < 2 ^ 64 := by
      have h5 : (⌊t⌋ : ℚ) ≤ t := Int.floor_le t
      have h6 : (⌊t⌋ : ℚ) < 2 ^ 31 := lt_of_le_of_lt h5 hhi
      have h7 : ⌊t⌋ < (2 : ℤ) ^ 31 := by exact_mod_cast h6
      omega
    have hts : toSizeT (ratTrunc t) = (⌊t⌋).toNat := by
      rw [hr]
      exact toSizeT_small (by omega) hfu
    have hlt : ⌊t⌋ < (s.m_points.length : ℤ) - 1 := Int.floor_lt.mpr (by push_cast; linarith)
    have hnot : ¬ s.m_points.length - 1 ≤ toSizeT (ratTrunc t) := by
      rw [hts]
      omega
    have hseg := evaluate_open_segment s t hne hc hnot
    rw [hseg, hts]
    have hmin : min (⌊t⌋).toNat (s.m_points.length - 1) = (⌊t⌋).toNat :=
      min_eq_left (by omega)
    rw [hmin, hr]

/-- C2, counterexample: for the 2-point spline with `p0 = (a=0, b=1, c=0, d=0)`
at `t = 1/2` (strictly between 0 and `n-1 = 1`), the claim's segment-0 cubic
gives `1/2`, but the code returns the clamped first value 0: the truncation
`(int)(1/2) = 0` falls into the `flort <= 0` clamp branch. -/
theorem C2_counterexample :
    CubicSpline.evaluate ⟨[⟨0, 1, 0, 0⟩, ⟨5, 0, 0, 0⟩], 0⟩ (1/2) false = 0 ∧
    (0 : ℚ) + 1 * (1/2) + 0 * (1/2 * (1/2)) + 0 * (1/2 * (1/2) * (1/2)) = 1/2 ∧
    (0 : ℚ) ≠ 1/2 := by
  refine ⟨by with_unfolding_all decide, by norm_num, by norm_num⟩

/-- Witness for C2_amended: 4-point spline, one sample in each clause's
domain. -/
theorem C2_witness :
    (([⟨2, 0, 0, 0⟩, ⟨3, 1, 1, 1⟩, ⟨7, 0, 0, 0⟩, ⟨9, 0, 0, 0⟩] : List SplinePoint).length ≠ 0) ∧
    (-(2 ^ 31) ≤ (3/2 : ℚ)) ∧ ((3/2 : ℚ) < 2 ^ 31) ∧ ((1 : ℚ) ≤ 3/2) ∧
    CubicSpline.evaluate ⟨[⟨2, 0, 0, 0⟩, ⟨3, 1, 1, 1⟩, ⟨7, 0, 0, 0⟩, ⟨9, 0, 0, 0⟩], 0⟩
        (3/2) false =
      (([⟨2, 0, 0, 0⟩, ⟨3, 1, 1, 1⟩, ⟨7, 0, 0, 0⟩, ⟨9, 0, 0, 0⟩] :
          List SplinePoint).getD (⌊(3/2 : ℚ)⌋).toNat default).a +
      (([⟨2, 0, 0, 0⟩, ⟨3, 1, 1, 1⟩, ⟨7, 0, 0, 0⟩, ⟨9, 0, 0, 0⟩] :
          List SplinePoint).getD (⌊(3/2 : ℚ)⌋).toNat default).b * ((3/2 : ℚ) - (⌊(3/2 : ℚ)⌋ : ℚ)) +
      (([⟨2, 0, 0, 0⟩, ⟨3, 1, 1, 1⟩, ⟨7, 0, 0, 0⟩, ⟨9, 0, 0, 0⟩] :
          List SplinePoint).getD (⌊(3/2 : ℚ)⌋).toNat default).c *
        (((3/2 : ℚ) - (⌊(3/2 : ℚ)⌋ : ℚ)) * ((3/2 : ℚ) - (⌊(3/2 : ℚ)⌋ : ℚ))) +
      (([⟨2, 0, 0, 0⟩, ⟨3, 1, 1, 1⟩, ⟨7, 0, 0, 0⟩, ⟨9, 0, 0, 0⟩] :
          List SplinePoint).getD (⌊(3/2 : ℚ)⌋).toNat default).d *
        (((3/2 : ℚ) - (⌊(3/2 : ℚ)⌋ : ℚ)) * ((3/2 : ℚ) - (⌊(3/2 : ℚ)⌋ : ℚ)) *
          ((3/2 : ℚ) - (⌊(3/2 : ℚ)⌋ : ℚ))) := by
  refine ⟨by decide, by norm_num, by norm_num, by norm_num, ?_⟩
  exact (C2_amended ⟨[⟨2, 0, 0, 0⟩, ⟨3, 1, 1, 1⟩, ⟨7, 0, 0, 0⟩, ⟨9, 0, 0, 0⟩], 0⟩ (3/2)
    (by decide) (by norm_num) (by norm_num)).2.2.2 (by norm_num)
    (by show (3/2 : ℚ) < ((4 : ℕ) : ℚ) - 1; norm_num)

theorem evaluate_derivative_open_zero (s : CubicSpline) (t : ℚ)
    (hne : s.m_points.length ≠ 0) (h : s.m_points.length - 1 ≤ toSizeT (ratTrunc t)) :
    CubicSpline.evaluate_derivative s t false = 0 := by
  unfold CubicSpline.evaluate_derivative
  simp only [if_neg hne, Bool.false_eq_true, if_false, if_pos h]

theorem evaluate_derivative_open_segment (s : CubicSpline) (t : ℚ)
    (hne : s.m_points.length ≠ 0) (h : ¬ s.m_points.length - 1 ≤ toSizeT (ratTrunc t)) :
    CubicSpline.evaluate_derivative s t false =
      (fun pt f => pt.b + 2 * pt.c * f + 3 * pt.d * (f * f))
        (s.m_points.getD (min (toSizeT (ratTrunc t)) (s.m_points.length - 1)) default)
        (t - (ratTrunc t : ℚ)) := by
  unfold CubicSpline.evaluate_derivative
  simp only [if_neg hne, Bool.false_eq_true, if_false, if_neg h]

/-- C10, amended: for every non-empty spline (of sane size, with `t` in the
int-representable range), `evaluate_derivative(t, loop=false)` returns 0 for
every `t ≤ -1`: the truncated `t`, cast to `size_t`, wraps to at least
`2^64 - 2^31`, which falls into the `t ≥ n-1` branch.  For `-1 < t < 0` and
AT LEAST 2 POINTS the segment-0 polynomial is evaluated at the negative
fractional part `t` (a 1-point spline instead returns 0 there as well, since
`n - 1 = 0` and the cast index is ≥ 0). -/
theorem C10_amended (s : CubicSpline) (t : ℚ) (hne : s.m_points.length ≠ 0)
    (hlen : s.m_points.length ≤ 2 ^ 63) (hlo : -(2 ^ 31) ≤ t) :
    (t ≤ -1 → CubicSpline.evaluate_derivative s t false = 0) ∧
    (-1 < t → t < 0 → 2 ≤ s.m_points.length →
      CubicSpline.evaluate_derivative s t false =
        (s.m_points.getD 0 default).b + 2 * (s.m_points.getD 0 default).c * t +
          3 * (s.m_points.getD 0 default).d * (t * t)) := by
  constructor
  · intro h
    have hneg : ¬ (0 ≤ t) := by linarith
    have hru : ratTrunc t ≤ -1 := ratTrunc_le_neg_one h
    have hrl : -(2 ^ 31) ≤ ratTrunc t := by
      have h1 : t ≤ (ratTrunc t : ℚ) := by
        unfold ratTrunc
        rw [if_neg hneg]
        exact Int.le_ceil t
      have h2 : (-(2 ^ 31) : ℚ) ≤ (ratTrunc t : ℚ) := le_trans hlo h1
      exact_mod_cast h2
    have hcast : (toSizeT (ratTrunc t) : Int) = ratTrunc t + 2 ^ 64 :=
      toSizeT_neg (ratTrunc t) (by omega) (by omega)
    apply evaluate_derivative_open_zero s t hne
    omega
  · intro h1 h2 h3
    have hceil : ratTrunc t = 0 := by
      unfold ratTrunc
      rw [if_neg (by linarith)]
      rw [Int.ceil_eq_iff]
      constructor
      · push_cast
        linarith
      · push_cast
        linarith
    have hnot : ¬ s.m_points.length - 1 ≤ toSizeT (ratTrunc t) := by
      rw [hceil]
      have : toSizeT 0 = 0 := rfl
      rw [this]
      omega
    have hseg := evaluate_derivative_open_segment s t hne hnot
    rw [hseg, hceil]
    have hmin : min (toSizeT 0) (s.m_points.length - 1) = 0 := by
      have h0 : toSizeT 0 = 0 := rfl
      rw [h0]
      exact min_eq_left (Nat.zero_le _)
    rw [hmin]
    push_cast
    ring

/-- C10, counterexample to the claim's parenthetical: a 1-point spline with
`b = 1` returns 0 at `t = -1/2` (the `n - 1 = 0` branch catches every index),
not the segment-0 polynomial value 1. -/
theorem C10_counterexample :
    CubicSpline.evaluate_derivative ⟨[⟨0, 1, 0, 0⟩], 0⟩ (-(1/2)) false = 0 ∧
    ((⟨[⟨0, 1, 0, 0⟩], 0⟩ : CubicSpline).m_points.getD 0 default).b +
      2 * ((⟨[⟨0, 1, 0, 0⟩], 0⟩ : CubicSpline).m_points.getD 0 default).c * (-(1/2)) +
      3 * ((⟨[⟨0, 1, 0, 0⟩], 0⟩ : CubicSpline).m_points.getD 0 default).d *
        ((-(1/2)) * (-(1/2))) = 1 ∧
    (0 : ℚ) ≠ 1 := by
  refine ⟨by with_unfolding_all decide, by norm_num, by norm_num⟩

/-- Witness for C10_amended: both clauses at a concrete 2-point spline. -/
theorem C10_witness :
    (([⟨0, 1, 2, 3⟩, ⟨5, 4, 5, 6⟩] : List SplinePoint).length ≠ 0) ∧
    (([⟨0, 1, 2, 3⟩, ⟨5, 4, 5, 6⟩] : List SplinePoint).length ≤ 2 ^ 63) ∧
    (-(2 ^ 31) ≤ (-2 : ℚ)) ∧ ((-2 : ℚ) ≤ -1) ∧
    CubicSpline.evaluate_derivative ⟨[⟨0, 1, 2, 3⟩, ⟨5, 4, 5, 6⟩], 0⟩ (-2) false = 0 ∧
    CubicSpline.evaluate_derivative ⟨[⟨0, 1, 2, 3⟩, ⟨5, 4, 5, 6⟩], 0⟩ (-(1/4)) false =
      (([⟨0, 1, 2, 3⟩, ⟨5, 4, 5, 6⟩] : List SplinePoint).getD 0 default).b +
        2 * (([⟨0, 1, 2, 3⟩, ⟨5, 4, 5, 6⟩] : List SplinePoint).getD 0 default).c * (-(1/4)) +
        3 * (([⟨0, 1, 2, 3⟩, ⟨5, 4, 5, 6⟩] : List SplinePoint).getD 0 default).d *
          ((-(1/4)) * (-(1/4))) := by
  refine ⟨by decide, by decide, by norm_num, by norm_num, ?_, ?_⟩
  · exact (C10_amended ⟨[⟨0, 1, 2, 3⟩, ⟨5, 4, 5, 6⟩], 0⟩ (-2)
      (by decide) (by decide) (by norm_num)).1 (by norm_num)
  · exact (C10_amended ⟨[⟨0, 1, 2, 3⟩, ⟨5, 4, 5, 6⟩], 0⟩ (-(1/4))
      (by decide) (by decide) (by norm_num)).2 (by norm_num) (by norm_num) (by decide)

/-- C4 (code_bug exhibit): the open-mode right-hand-side elimination in the
source does NOT mirror the diagonal elimination.  For the 3-point diagonals and
the rhs vector [3, 6, 9]: the code (`results[i] -= results[i-1]/d[i]`)
produces [3, 51/14, 9] — it double-updates rhs[1] (dividing by d[1] instead
of d[0]-then-d[1]) and never touches rhs[n-1] — while the elimination the
claim (and the in-source comment) describe (`rhs[i+1] -= rhs[i]/d[i]`)
produces [3, 9/2, 54/7]. -/
theorem C4_rhs_elimination_diverges :
    straight_rhs_eliminate (straight_diags 3) [3, 6, 9] = [3, 51/14, 9] ∧
    straight_rhs_eliminate_claim (straight_diags 3) [3, 6, 9] = [3, 9/2, 54/7] ∧
    straight_rhs_eliminate (straight_diags 3) [3, 6, 9] ≠
      straight_rhs_eliminate_claim (straight_diags 3) [3, 6, 9] := by
  refine ⟨by with_unfolding_all decide, by with_unfolding_all decide,
    by with_unfolding_all decide⟩

theorem getD_set_ne_rat (l : List ℚ) (j i : Nat) (v : ℚ) (h : j ≠ i) :
    (l.set j v).getD i 0 = l.getD i 0 := by
  rw [List.getD_eq_getElem?_getD, List.getD_eq_getElem?_getD, List.getElem?_set_ne h]

theorem looped_diag_work_eq (n : Nat) : looped_diag_work n = looped_diag_work_spec n := by
  funext st i
  obtain ⟨d, ce, re⟩ := st
  unfold looped_diag_work looped_diag_work_spec
  dsimp only
  rw [getD_set_ne_rat d (i + 1) i (d.getD (i + 1) 0 - 1 / d.getD i 0) (by omega)]
  simp [div_eq_mul_inv, zero_sub]

/-- C5: for every `n ≥ 3` the periodic diagonal solve computes exactly the
specified elimination: `cedge`/`redge` start at 1; each step `i` in `0..n-3`
computes `recip = 1/d[i]`, does `d[i+1] -= recip` and
`d[n-1] -= redge·(cedge·recip)`, then propagates `cedge' = -cedge·recip`,
`redge' = -redge·recip`; afterwards `d[n-1] -= redge·((1-cedge)/d[n-2])`. -/
theorem C5_looped_diagonals_as_specified (n : Nat) (_hn : 3 ≤ n) :
    looped_diags n = looped_diags_spec n := by
  unfold looped_diags looped_diags_spec
  rw [looped_diag_work_eq n]

/-- Witness for C5 at `n = 5`. -/
theorem C5_witness : 3 ≤ 5 ∧ looped_diags 5 = looped_diags_spec 5 :=
  ⟨by decide, C5_looped_diagonals_as_specified 5 (by decide)⟩

/-- C7: an insert places the new entry at the front; it removes the back
entry first exactly when the pool already holds `solution_cache_limit` (16)
entries, so a pool within the bound stays within the bound.  Consequently,
inserting diagonals for the 17 distinct point counts 3..19 into the straight
pool leaves exactly the 16 most recently used sizes 4..19 retrievable as
hits, evicts the least-recently-used size 3, and keeps the entry of the most
recent size 19 at the front. -/
theorem C7_cache_bound_and_eviction :
    (∀ (cache : List (List ℚ)) (v : List ℚ),
      (cache.length ≤ solution_cache_limit →
        (add_to_cache cache v).length ≤ solution_cache_limit) ∧
      (add_to_cache cache v).head? = some v ∧
      (cache.length = solution_cache_limit → add_to_cache cache v = v :: cache.dropLast) ∧
      (cache.length < solution_cache_limit → add_to_cache cache v = v :: cache)) ∧
    seventeen_pool.length = 16 ∧
    (find_in_cache seventeen_pool 3).isSome = false ∧
    ((List.range' 4 16).all (fun n => (find_in_cache seventeen_pool n).isSome)) = true ∧
    seventeen_pool.head? = some (straight_diags 19) := by
  have hlim : solution_cache_limit = 16 := rfl
  refine ⟨?_, by decide, by decide, by decide, rfl⟩
  intro cache v
  refine ⟨?_, rfl, ?_, ?_⟩
  · intro h
    unfold add_to_cache
    rw [List.length_cons]
    split
    · rw [List.length_dropLast]
      omega
    · rename_i hcond
      rw [hlim] at *
      omega
  · intro h
    unfold add_to_cache
    rw [if_pos (le_of_eq h.symm)]
  · intro h
    unfold add_to_cache
    rw [if_neg (by omega)]

/-- Witness for C7's bounded-insert clause at a concrete pool. -/
theorem C7_witness :
    ([([1] : List ℚ)] : List (List ℚ)).length ≤ solution_cache_limit ∧
    (add_to_cache [[1]] [2]).length ≤ solution_cache_limit ∧
    (find_in_cache seventeen_pool 10).isSome = true := by
  refine ⟨by decide, ?_, ?_⟩
  · exact (C7_cache_bound_and_eviction.1 [[1]] [2]).1 (by decide)
  · have h := C7_cache_bound_and_eviction.2.2.2.1
    have h10 := List.all_eq_true.mp h 10 (by decide)
    simpa using h10

theorem foldl_set_length (g : List ℚ → Nat → List ℚ)
    (hg : ∀ r i, (g r i).length = r.length) :
    ∀ (xs : List Nat) (r : List ℚ), (xs.foldl g r).length = r.length := by
  intro xs
  induction xs with
  | nil => intro r; rfl
  | cons x xs ih =>
    intro r
    rw [List.foldl_cons, ih, hg]

theorem straight_diags_length (n : Nat) : (straight_diags n).length = n := by
  unfold straight_diags
  dsimp only
  rw [foldl_set_length _ (fun r i => List.length_set r (i + 1) _), List.length_set,
    List.length_set, foldl_set_length _ (fun r i => List.length_set r i 4),
    List.length_set, List.length_replicate]

theorem looped_fold_length (n : Nat) :
    ∀ (xs : List Nat) (st : List ℚ × ℚ × ℚ),
      ((xs.foldl (looped_diag_work n) st).1).length = st.1.length := by
  intro xs
  induction xs with
  | nil => intro st; rfl
  | cons x xs ih =>
    intro st
    rw [List.foldl_cons, ih]
    unfold looped_diag_work
    dsimp only
    rw [List.length_set, List.length_set]

theorem looped_diags_length (n : Nat) : (looped_diags n).length = n := by
  unfold looped_diags
  dsimp only
  rw [List.length_set, looped_fold_length]
  dsimp only
  rw [foldl_set_length _ (fun r i => List.length_set r i 4), List.length_set,
    List.length_replicate]

theorem pool_ok_add (pool : List (List ℚ)) (f : Nat → List ℚ) (n : Nat)
    (hok : pool_ok pool f) (hlen : (f n).length = n) :
    pool_ok (add_to_cache pool (f n)) f := by
  intro e he
  unfold add_to_cache at he
  rcases List.mem_cons.mp he with rfl | hmem
  · rw [hlen]
  · split at hmem
    · exact hok e (List.dropLast_subset pool hmem)
    · exact hok e hmem

theorem pool_ok_straight_step (pool : List (List ℚ)) (n : Nat)
    (hok : pool_ok pool straight_diags) :
    pool_ok (solve_diagonals_straight_cached pool n).2 straight_diags := by
  unfold solve_diagonals_straight_cached
  cases hfind : find_in_cache pool n with
  | some e => exact hok
  | none => exact pool_ok_add pool straight_diags n hok (straight_diags_length n)

theorem pool_ok_looped_step (pool : List (List ℚ)) (n : Nat)
    (hok : pool_ok pool looped_diags) :
    pool_ok (solve_diagonals_looped_cached pool n).2 looped_diags := by
  unfold solve_diagonals_looped_cached
  cases hfind : find_in_cache pool n with
  | some e => exact hok
  | none => exact pool_ok_add pool looped_diags n hok (looped_diags_length n)

/-- Every cache state reachable from program start keeps both pools
consistent: each entry equals the pure solution for its own length. -/
theorem runCacheOps_ok (ops : List CacheOp) :
    pool_ok (runCacheOps ops).straight_pool straight_diags ∧
    pool_ok (runCacheOps ops).looped_pool looped_diags := by
  unfold runCacheOps
  suffices h : ∀ st : CacheState, pool_ok st.straight_pool straight_diags →
      pool_ok st.looped_pool looped_diags →
      pool_ok (ops.foldl cacheStep st).straight_pool straight_diags ∧
      pool_ok (ops.foldl cacheStep st).looped_pool looped_diags by
    exact h ⟨[], []⟩ (fun e he => absurd he (List.not_mem_nil e))
      (fun e he => absurd he (List.not_mem_nil e))
  induction ops with
  | nil =>
    intro st h1 h2
    exact ⟨h1, h2⟩
  | cons op ops ih =>
    intro st h1 h2
    rw [List.foldl_cons]
    apply ih
    · cases op with
      | straight n => exact pool_ok_straight_step st.straight_pool n h1
      | looped n => exact h1
    · cases op with
      | straight n => exact h2
      | looped n => exact pool_ok_looped_step st.looped_pool n h2

/-- C8: cache transparency.  From any cache state reachable by any sequence
of solves, a solve of `n ≥ 3` points returns exactly the pure diagonal vector
for `n` in its mode — hit path and miss path are observationally equivalent,
and the diagonals are a function of point count and boundary mode alone. -/
theorem C8_cache_transparent (ops : List CacheOp) (n : Nat) (_hn : 3 ≤ n)
    (_hops : ∀ op ∈ ops, 3 ≤ CacheOp.count op) :
    (solve_diagonals_straight_cached (runCacheOps ops).straight_pool n).1 =
      straight_diags n ∧
    (solve_diagonals_looped_cached (runCacheOps ops).looped_pool n).1 =
      looped_diags n := by
  obtain ⟨h1, h2⟩ := runCacheOps_ok ops
  constructor
  · unfold solve_diagonals_straight_cached
    cases hfind : find_in_cache (runCacheOps ops).straight_pool n with
    | none => rfl
    | some e =>
      unfold find_in_cache at hfind
      have hmem := List.mem_of_find?_eq_some hfind
      have hp := List.find?_some hfind
      have hlen : e.length = n := by simpa using hp
      rw [h1 e hmem, hlen]
  · unfold solve_diagonals_looped_cached
    cases hfind : find_in_cache (runCacheOps ops).looped_pool n with
    | none => rfl
    | some e =>
      unfold find_in_cache at hfind
      have hmem := List.mem_of_find?_eq_some hfind
      have hp := List.find?_some hfind
      have hlen : e.length = n := by simpa using hp
      rw [h2 e hmem, hlen]

/-- Witness for C8: after one straight solve of size 5, a straight solve of
size 4 still yields the pure diagonals for 4. -/
theorem C8_witness :
    3 ≤ 4 ∧ (∀ op ∈ ([CacheOp.straight 5] : List CacheOp), 3 ≤ CacheOp.count op) ∧
    (solve_diagonals_straight_cached
      (runCacheOps [CacheOp.straight 5]).straight_pool 4).1 = straight_diags 4 := by
  exact ⟨by decide, by decide,
    (C8_cache_transparent [CacheOp.straight 5] 4 (by decide) (by decide)).1⟩

theorem getD_mem_of_lt_spline (l : List CubicSpline) (i : Nat) (h : i < l.length) :
    l.getD i default ∈ l := by
  rw [List.getD_eq_getElem?_getD, List.getElem?_eq_getElem h, Option.getD_some]
  exact List.getElem_mem h

theorem set_point_length (s t : CubicSpline) (i : Nat) (v : ℚ)
    (h : CubicSpline.set_point s i v = some t) :
    t.m_points.length = s.m_points.length := by
  unfold CubicSpline.set_point at h
  split at h
  · cases h
    exact List.length_set _ _ _
  · cases h

theorem set_coefficients_length (s t : CubicSpline) (i : Nat) (b c d : ℚ)
    (h : CubicSpline.set_coefficients s i b c d = some t) :
    t.m_points.length = s.m_points.length := by
  unfold CubicSpline.set_coefficients at h
  split at h
  · cases h
    exact List.length_set _ _ _
  · cases h

theorem check_minimum_size_length (s t : CubicSpline) (fl : Bool)
    (h : check_minimum_size s = some (t, fl)) :
    t.m_points.length = s.m_points.length := by
  unfold check_minimum_size at h
  rcases hm : s.m_points with _ | ⟨p0, _ | ⟨p1, _ | ⟨p2, rest⟩⟩⟩ <;> rw [hm] at h
  · cases h
  · cases h
    rfl
  · cases h
    rfl
  · cases h
    simp [List.length_map]

theorem set_results_length (s : CubicSpline) (diagonals results : List ℚ) :
    (set_results s diagonals results).m_points.length = s.m_points.length := by
  unfold set_results
  dsimp only
  rw [List.length_map, List.length_range]

theorem solve_straight_length (s t : CubicSpline) (h : solve_straight s = some t) :
    t.m_points.length = s.m_points.length := by
  unfold solve_straight at h
  cases hc : check_minimum_size s with
  | none =>
    rw [hc] at h
    cases h
  | some pr =>
    obtain ⟨u, fl⟩ := pr
    rw [hc] at h
    cases fl with
    | true =>
      cases h
      exact check_minimum_size_length s t true hc
    | false =>
      cases h
      rw [set_results_length]
      exact check_minimum_size_length s u false hc

theorem solve_looped_length (s t : CubicSpline) (h : solve_looped s = some t) :
    t.m_points.length = s.m_points.length := by
  unfold solve_looped at h
  cases hc : check_minimum_size s with
  | none =>
    rw [hc] at h
    cases h
  | some pr =>
    obtain ⟨u, fl⟩ := pr
    rw [hc] at h
    cases fl with
    | true =>
      cases h
      exact check_minimum_size_length s t true hc
    | false =>
      cases h
      rw [set_results_length]
      exact check_minimum_size_length s u false hc

theorem set_point_each_sizes :
    ∀ (l : List CubicSpline) (vs : List ℚ) (i : Nat) (l2 : List CubicSpline),
      set_point_each l vs i = some l2 →
      l2.map (fun s => s.m_points.length) = l.map (fun s => s.m_points.length) := by
  intro l
  induction l with
  | nil =>
    intro vs i l2 h
    cases vs with
    | nil =>
      cases h
      rfl
    | cons v vs => cases h
  | cons s rest ih =>
    intro vs i l2 h
    cases vs with
    | nil => cases h
    | cons v vs =>
      unfold set_point_each at h
      cases hsp : CubicSpline.set_point s i v with
      | none =>
        rw [hsp] at h
        cases h
      | some t =>
        rw [hsp] at h
        cases hrest : set_point_each rest vs i with
        | none =>
          rw [hrest] at h
          cases h
        | some r2 =>
          rw [hrest] at h
          cases h
          simp only [List.map_cons]
          rw [set_point_length s t i v hsp, ih vs i r2 hrest]

theorem set_coefficients_each_sizes :
    ∀ (l : List CubicSpline) (bs cs ds : List ℚ) (i : Nat) (l2 : List CubicSpline),
      set_coefficients_each l bs cs ds i = some l2 →
      l2.map (fun s => s.m_points.length) = l.map (fun s => s.m_points.length) := by
  intro l
  induction l with
  | nil =>
    intro bs cs ds i l2 h
    cases bs with
    | nil =>
      cases cs with
      | nil =>
        cases ds with
        | nil =>
          cases h
          rfl
        | cons dd ds => cases h
      | cons cc cs => cases h
    | cons bb bs => cases h
  | cons s rest ih =>
    intro bs cs ds i l2 h
    cases bs with
    | nil => cases h
    | cons bb bs =>
      cases cs with
      | nil => cases h
      | cons cc cs =>
        cases ds with
        | nil => cases h
        | cons dd ds =>
          unfold set_coefficients_each at h
          cases hsp : CubicSpline.set_coefficients s i bb cc dd with
          | none =>
            rw [hsp] at h
            cases h
          | some t =>
            rw [hsp] at h
            cases hrest : set_coefficients_each rest bs cs ds i with
            | none =>
              rw [hrest] at h
              cases h
            | some r2 =>
              rw [hrest] at h
              cases h
              simp only [List.map_cons]
              rw [set_coefficients_length s t i bb cc dd hsp, ih bs cs ds i r2 hrest]

theorem solve_each_sizes (f : CubicSpline → Option CubicSpline)
    (hf : ∀ s t, f s = some t → t.m_points.length = s.m_points.length) :
    ∀ (l l2 : List CubicSpline), solve_each f l = some l2 →
      l2.map (fun s => s.m_points.length) = l.map (fun s => s.m_points.length) := by
  intro l
  induction l with
  | nil =>
    intro l2 h
    cases h
    rfl
  | cons s rest ih =>
    intro l2 h
    unfold solve_each at h
    cases hsp : f s with
    | none =>
      rw [hsp] at h
      cases h
    | some t =>
      rw [hsp] at h
      cases hrest : solve_each f rest with
      | none =>
        rw [hrest] at h
        cases h
      | some r2 =>
        rw [hrest] at h
        cases h
        simp only [List.map_cons]
        rw [hf s t hsp, ih r2 hrest]

theorem sizes_all_eq_of_map_len_eq (l l2 : List CubicSpline)
    (h : l2.map (fun s => s.m_points.length) = l.map (fun s => s.m_points.length))
    (hl : ∀ s1 ∈ l, ∀ s2 ∈ l, s1.m_points.length = s2.m_points.length) :
    ∀ s1 ∈ l2, ∀ s2 ∈ l2, s1.m_points.length = s2.m_points.length := by
  intro s1 h1 s2 h2
  have m1 : s1.m_points.length ∈ l2.map (fun s => s.m_points.length) :=
    List.mem_map_of_mem _ h1
  have m2 : s2.m_points.length ∈ l2.map (fun s => s.m_points.length) :=
    List.mem_map_of_mem _ h2
  rw [h] at m1 m2
  obtain ⟨u1, hu1, e1⟩ := List.mem_map.mp m1
  obtain ⟨u2, hu2, e2⟩ := List.mem_map.mp m2
  rw [← e1, ← e2]
  exact hl u1 hu1 u2 hu2

theorem bundle_set_point_sizes (b b2 : CubicSplineN) (i : Nat) (v : List ℚ)
    (hb : sizes_all_eq b) (h : CubicSplineN.set_point b i v = some b2) :
    sizes_all_eq b2 := by
  unfold sizes_all_eq at hb ⊢
  unfold CubicSplineN.set_point at h
  split at h
  · cases hsp : set_point_each b.m_splines v i with
    | none =>
      rw [hsp] at h
      cases h
    | some l =>
      rw [hsp] at h
      cases h
      exact sizes_all_eq_of_map_len_eq b.m_splines l
        (set_point_each_sizes b.m_splines v i l hsp) hb
  · cases h

theorem bundle_set_coefficients_sizes (b b2 : CubicSplineN) (i : Nat) (bs cs ds : List ℚ)
    (hb : sizes_all_eq b) (h : CubicSplineN.set_coefficients b i bs cs ds = some b2) :
    sizes_all_eq b2 := by
  unfold sizes_all_eq at hb ⊢
  unfold CubicSplineN.set_coefficients at h
  split at h
  · cases hsp : set_coefficients_each b.m_splines bs cs ds i with
    | none =>
      rw [hsp] at h
      cases h
    | some l =>
      rw [hsp] at h
      cases h
      exact sizes_all_eq_of_map_len_eq b.m_splines l
        (set_coefficients_each_sizes b.m_splines bs cs ds i l hsp) hb
  · cases h

theorem bundle_set_extent_sizes (b b2 : CubicSplineN) (i : Nat) (e : ℚ)
    (hb : sizes_all_eq b) (h : CubicSplineN.set_spatial_extent b i e = some b2) :
    sizes_all_eq b2 := by
  unfold sizes_all_eq at hb ⊢
  unfold CubicSplineN.set_spatial_extent at h
  split at h
  · rename_i hi
    cases h
    intro s1 h1 s2 h2
    have hgd : b.m_splines.getD i default ∈ b.m_splines := getD_mem_of_lt_spline _ i hi
    have l1 : ∃ u ∈ b.m_splines, s1.m_points.length = u.m_points.length := by
      rcases List.mem_or_eq_of_mem_set h1 with k1 | rfl
      · exact ⟨s1, k1, rfl⟩
      · exact ⟨_, hgd, rfl⟩
    have l2 : ∃ u ∈ b.m_splines, s2.m_points.length = u.m_points.length := by
      rcases List.mem_or_eq_of_mem_set h2 with k2 | rfl
      · exact ⟨s2, k2, rfl⟩
      · exact ⟨_, hgd, rfl⟩
    obtain ⟨u1, hu1, e1⟩ := l1
    obtain ⟨u2, hu2, e2⟩ := l2
    rw [e1, e2]
    exact hb u1 hu1 u2 hu2
  · cases h

theorem bundle_resize_sizes (b : CubicSplineN) (n : Nat) :
    sizes_all_eq (CubicSplineN.resize b n) := by
  unfold sizes_all_eq CubicSplineN.resize
  dsimp only
  have key : ∀ s ∈ b.m_splines.map (fun s => CubicSpline.resize s n),
      s.m_points.length = n := by
    intro s hs
    obtain ⟨u, _, rfl⟩ := List.mem_map.mp hs
    unfold CubicSpline.resize
    dsimp only
    rw [List.length_append, List.length_take, List.length_replicate]
    omega
  intro s1 h1 s2 h2
  rw [key s1 h1, key s2 h2]

theorem bundle_solve_sizes (b b2 : CubicSplineN)
    (hb : sizes_all_eq b) (h : CubicSplineN.solve b = some b2) :
    sizes_all_eq b2 := by
  unfold sizes_all_eq at hb ⊢
  unfold CubicSplineN.solve at h
  split at h
  · cases h
    exact hb
  · cases hse : solve_each (if b.loop then solve_looped else solve_straight) b.m_splines with
    | none =>
      rw [hse] at h
      cases h
    | some l =>
      rw [hse] at h
      cases h
      refine sizes_all_eq_of_map_len_eq b.m_splines l
        (solve_each_sizes _ ?_ b.m_splines l hse) hb
      intro s t hst
      split at hst
      · exact solve_looped_length s t hst
      · exact solve_straight_length s t hst

theorem bundle_redimension_sizes (b : CubicSplineN) (d : Nat) (hb : sizes_all_eq b)
    (hcase : d ≤ b.m_splines.length ∨ CubicSplineN.size b = 0) :
    sizes_all_eq (CubicSplineN.redimension b d) := by
  unfold sizes_all_eq at hb ⊢
  unfold CubicSplineN.redimension
  dsimp only
  rcases hcase with hle | hsz
  · have hrep : d - b.m_splines.length = 0 := Nat.sub_eq_zero_of_le hle
    rw [hrep]
    simp only [List.replicate, List.append_nil]
    intro s1 h1 s2 h2
    exact hb s1 (List.mem_of_mem_take h1) s2 (List.mem_of_mem_take h2)
  · have hall : ∀ s ∈ b.m_splines, s.m_points.length = 0 := by
      intro s hs
      unfold CubicSplineN.size at hsz
      cases hms : b.m_splines with
      | nil => exact absurd (hms ▸ hs) (List.not_mem_nil s)
      | cons s0 rest =>
        rw [hms] at hsz
        have h0 : s0.m_points.length = 0 := hsz
        have hmem0 : s0 ∈ b.m_splines := by
          rw [hms]
          exact List.mem_cons_self s0 rest
        rw [hb s hs s0 hmem0, h0]
    have z : ∀ s ∈ b.m_splines.take d ++ List.replicate (d - b.m_splines.length) default,
        s.m_points.length = 0 := by
      intro s hs
      rcases List.mem_append.mp hs with hs | hs
      · exact hall s (List.mem_of_mem_take hs)
      · rw [List.eq_of_mem_replicate hs]
        rfl
    intro s1 h1 s2 h2
    rw [z s1 h1, z s2 h2]

/-- C6, amended: starting from any bundle state whose member splines all have
equal point count, `set_point`, `set_coefficients`, `set_spatial_extent`,
`resize` and `solve` preserve that invariant; `redimension` preserves it when
it does not grow the dimension, or when the common point count is 0 — a
growing `redimension` appends default-constructed EMPTY splines
(`m_splines.resize(d)`), so member sizes differ until a subsequent `resize`. -/
theorem C6_amended (b : CubicSplineN) (hb : sizes_all_eq b) :
    (∀ (i : Nat) (v : List ℚ) (b2 : CubicSplineN),
      CubicSplineN.set_point b i v = some b2 → sizes_all_eq b2) ∧
    (∀ (i : Nat) (bs cs ds : List ℚ) (b2 : CubicSplineN),
      CubicSplineN.set_coefficients b i bs cs ds = some b2 → sizes_all_eq b2) ∧
    (∀ (i : Nat) (e : ℚ) (b2 : CubicSplineN),
      CubicSplineN.set_spatial_extent b i e = some b2 → sizes_all_eq b2) ∧
    (∀ n : Nat, sizes_all_eq (CubicSplineN.resize b n)) ∧
    (∀ b2 : CubicSplineN, CubicSplineN.solve b = some b2 → sizes_all_eq b2) ∧
    (∀ d : Nat, d ≤ b.m_splines.length ∨ CubicSplineN.size b = 0 →
      sizes_all_eq (CubicSplineN.redimension b d)) := by
  refine ⟨?_, ?_, ?_, ?_, ?_, ?_⟩
  · intro i v b2 h
    exact bundle_set_point_sizes b b2 i v hb h
  · intro i bs cs ds b2 h
    exact bundle_set_coefficients_sizes b b2 i bs cs ds hb h
  · intro i e b2 h
    exact bundle_set_extent_sizes b b2 i e hb h
  · intro n
    exact bundle_resize_sizes b n
  · intro b2 h
    exact bundle_solve_sizes b b2 hb h
  · intro d hd
    exact bundle_redimension_sizes b d hb hd

/-- C6, counterexample: the bundle reached by `redimension(1)` then
`resize(1)` from a fresh bundle satisfies the invariant (one spline of one
point); a further `redimension(2)` appends a default-constructed EMPTY
spline, leaving member sizes [1, 0] — the invariant is broken. -/
theorem C6_counterexample :
    sizes_all_eq (CubicSplineN.resize (CubicSplineN.redimension ⟨[], false, false⟩ 1) 1) ∧
    ¬ sizes_all_eq (CubicSplineN.redimension
      (CubicSplineN.resize (CubicSplineN.redimension ⟨[], false, false⟩ 1) 1) 2) := by
  unfold sizes_all_eq
  exact ⟨by decide, by decide⟩

/-- Witness for C6_amended at a concrete 2-dimension, 1-point bundle. -/
theorem C6_witness :
    sizes_all_eq (⟨[⟨[⟨1, 0, 0, 0⟩], 0⟩, ⟨[⟨2, 0, 0, 0⟩], 0⟩], false, true⟩ : CubicSplineN) ∧
    sizes_all_eq (CubicSplineN.resize
      (⟨[⟨[⟨1, 0, 0, 0⟩], 0⟩, ⟨[⟨2, 0, 0, 0⟩], 0⟩], false, true⟩ : CubicSplineN) 3) := by
  have hb : sizes_all_eq
      (⟨[⟨[⟨1, 0, 0, 0⟩], 0⟩, ⟨[⟨2, 0, 0, 0⟩], 0⟩], false, true⟩ : CubicSplineN) := by
    unfold sizes_all_eq
    decide
  exact ⟨hb, (C6_amended ⟨[⟨[⟨1, 0, 0, 0⟩], 0⟩, ⟨[⟨2, 0, 0, 0⟩], 0⟩], false, true⟩
    hb).2.2.2.1 3⟩
/-- C9: `loop_space_difference(a, b, extent)` always returns one of the two
wrapped candidates `a-(b+extent)` / `a-(b-extent)`, the one of (weakly)
smaller magnitude, never a third unwrapped value; with `extent = 0` both
candidates coincide and the result is exactly `a - b`. -/
theorem C9_loop_space_difference_minimal (a b ext : ℚ) :
    (loop_space_difference a b ext = a - (b + ext) ∨
      loop_space_difference a b ext = a - (b - ext)) ∧
    |loop_space_difference a b ext| ≤ |a - (b + ext)| ∧
    |loop_space_difference a b ext| ≤ |a - (b - ext)| ∧
    loop_space_difference a b 0 = a - b := by
  unfold loop_space_difference
  refine ⟨?_, ?_, ?_, ?_⟩
  · by_cases h : |a - (b + ext)| < |a - (b - ext)|
    · exact Or.inl (by simp [h])
    · exact Or.inr (by simp [h])
  · by_cases h : |a - (b + ext)| < |a - (b - ext)|
    · simp [h]
    · simp only [h, if_false]
      exact le_of_not_lt h
  · by_cases h : |a - (b + ext)| < |a - (b - ext)|
    · simp only [h, if_true]
      exact le_of_lt h
    · simp [h]
  · simp

